import Mathlib

/-!
Verification of the smart-assets video-detection pipeline.

The development shallowly embeds the two source files of the repository:

* `YOLO_Pred.py` — the `YOLO_Pred` class: palette generation in `__init__`,
  `update_thresholds`, and `predictions` (letterbox, decode, suppress, annotate,
  with the whole stage wrapped in a `try/except` that returns the image).
* `processVideo.py` — the top-level frame pipeline: output-path construction,
  the main read/process/write loop with coarse progress reporting, the
  top-level `try/except/finally`, and the terminal records and exit.

Numbers that Python represents as floats are embedded as exact rationals `ℚ`;
Python `int()` truncation is `pyInt`.  External capabilities (the network
forward pass, the cv2 drawing primitives) are parameters of the embedding;
`cv2.dnn.NMSBoxes` is modelled from the spec (see `NMSBoxes` below) because it
is an external library routine, not code of this repository.
-/

/-- Python `int()` applied to an exact rational: truncation toward zero. -/
def pyInt (q : ℚ) : ℤ := q.num.tdiv (q.den : ℤ)

/-- Exact rational division, computed directly on numerator and denominator so
that it evaluates by kernel reduction.  `ratDiv_eq_div` shows it agrees with
the field division of `ℚ`. -/
def ratDiv (a b : ℚ) : ℚ := Rat.divInt (a.num * b.den) (a.den * b.num)

theorem ratDiv_eq_div (a b : ℚ) : ratDiv a b = a / b := by
  unfold ratDiv
  rcases eq_or_ne b 0 with hb | hb
  · subst hb; simp [Rat.divInt_eq_div]
  · have hbnum : (b.num : ℚ) ≠ 0 := Int.cast_ne_zero.mpr (Rat.num_ne_zero.mpr hb)
    have had : ((a.den : ℤ) : ℚ) ≠ 0 := by
      exact_mod_cast Nat.cast_ne_zero.mpr a.den_nz
    have hbd : ((b.den : ℤ) : ℚ) ≠ 0 := by
      exact_mod_cast Nat.cast_ne_zero.mpr b.den_nz
    have ha' : (a.num : ℚ) = a * (a.den : ℤ) := by
      have := Rat.num_div_den a
      field_simp at this ⊢
    have hb' : (b.num : ℚ) = b * (b.den : ℤ) := by
      have := Rat.num_div_den b
      field_simp at this ⊢
    rw [Rat.divInt_eq_div]
    push_cast
    rw [div_eq_div_iff (by exact mul_ne_zero had hbnum) hb]
    push_cast [ha', hb']
    ring

/-!
## Decoder data model (`YOLO_Pred.predictions`, lines 89–115)

One raw detection row is `[cx, cy, w, h, objectness, class_score_0, ...]`.
The tensor produced by the network always has at least one class-score column
(`nc ≥ 1` classes in the descriptor), so the scores are carried as a
structurally non-empty list `s0 :: srest`.
-/

structure Row where
  cx : ℚ
  cy : ℚ
  w : ℚ
  h : ℚ
  conf : ℚ
  s0 : ℚ
  srest : List ℚ
deriving DecidableEq

/-- The class-score slice `row[5:]`. -/
def Row.scores (r : Row) : List ℚ := r.s0 :: r.srest

/-- Source: `class_score = row[5:].max()`. -/
def Row.maxScore (r : Row) : ℚ := r.srest.foldl max r.s0

/-- Source: `class_id = row[5:].argmax()` — `np.argmax` returns the first
index attaining the maximum. -/
def Row.argmaxScore (r : Row) : ℕ := r.scores.indexOf r.maxScore

/-- Coordinate transform of one retained row (source lines 94–96 and 106–112).
`input_image` is the zero-filled square of side `max_rc = max(row, col)` with
the original image copied to its top-left corner, so
`image_w, image_h = input_image.shape[:2]` are both `max_rc` and the two
factors coincide. -/
def decodeRow (imgRow imgCol : ℕ) (r : Row) : ℤ × ℤ × ℤ × ℤ :=
  let max_rc : ℕ := max imgRow imgCol
  let image_w : ℕ := max_rc
  let image_h : ℕ := max_rc
  let x_factor : ℚ := ratDiv (image_w : ℚ) 640
  let y_factor : ℚ := ratDiv (image_h : ℚ) 640
  (pyInt ((r.cx - Rat.divInt 1 2 * r.w) * x_factor),
   pyInt ((r.cy - Rat.divInt 1 2 * r.h) * y_factor),
   pyInt (r.w * x_factor),
   pyInt (r.h * y_factor))

/-- The three parallel sequences built by the decode loop. -/
structure BoxSet where
  boxes : List (ℤ × ℤ × ℤ × ℤ)
  confidences : List ℚ
  classIds : List ℕ
deriving DecidableEq

/-- The decode loop (source lines 98–115): the objectness gate
`confidence > self.conf_thresh` is tested first; only rows passing it have
their class scores examined against `class_score > self.class_thresh`.
Appends happen in input row order. -/
def decode (conf_thresh class_thresh : ℚ) (imgRow imgCol : ℕ) : List Row → BoxSet
  | [] => ⟨[], [], []⟩
  | r :: rest =>
    let B := decode conf_thresh class_thresh imgRow imgCol rest
    if conf_thresh < r.conf then
      if class_thresh < r.maxScore then
        ⟨decodeRow imgRow imgCol r :: B.boxes,
         r.conf :: B.confidences,
         r.argmaxScore :: B.classIds⟩
      else B
    else B

/-- Gate predicate: a row is retained iff objectness strictly exceeds
`conf_thresh` and its maximum class score strictly exceeds `class_thresh`. -/
def rowGate (conf_thresh class_thresh : ℚ) (r : Row) : Bool :=
  decide (conf_thresh < r.conf) && decide (class_thresh < r.maxScore)

/-!
## Suppressor

The source calls `cv2.dnn.NMSBoxes(boxes_np, confidences_np, 0.25, 0.45)`
(line 120).  That routine is part of OpenCV, not of this repository, so it is
modelled from the spec here.
-/

/-- Intersection-over-union of two `(left, top, width, height)` boxes: ratio of
the overlap area to the union area (`0` when the union is degenerate). -/
def iou (a b : ℤ × ℤ × ℤ × ℤ) : ℚ :=
  let ix : ℤ := max a.1 b.1
  let iy : ℤ := max a.2.1 b.2.1
  let ix2 : ℤ := min (a.1 + a.2.2.1) (b.1 + b.2.2.1)
  let iy2 : ℤ := min (a.2.1 + a.2.2.2) (b.2.1 + b.2.2.2)
  let inter : ℤ := max 0 (ix2 - ix) * max 0 (iy2 - iy)
  let uni : ℤ := a.2.2.1 * a.2.2.2 + b.2.2.1 * b.2.2.2 - inter
  ratDiv (inter : ℚ) (uni : ℚ)

/-- Insert index `i` into an already-ordered index list, keeping the order
given by `le`. -/
def insertIdx' (le : ℕ → ℕ → Bool) (i : ℕ) : List ℕ → List ℕ
  | [] => [i]
  | j :: l => if le i j then i :: j :: l else j :: insertIdx' le i l

/-- Insertion sort of an index list by `le`. -/
def sortIdx (le : ℕ → ℕ → Bool) : List ℕ → List ℕ
  | [] => []
  | i :: l => insertIdx' le i (sortIdx le l)

/-- Ordering for candidate indices: higher confidence first, confidence ties
broken by lower original index. -/
def confOrder (confs : List ℚ) (i j : ℕ) : Bool :=
  decide (confs.getD j 0 < confs.getD i 0) ||
    (decide (confs.getD i 0 = confs.getD j 0) && decide (i ≤ j))

/-- Greedy pass: keep an index iff its IoU with every already-kept box is
strictly below `iou_threshold`. -/
def nmsGreedy (boxes : List (ℤ × ℤ × ℤ × ℤ)) (iou_threshold : ℚ)
    (kept : List ℕ) : List ℕ → List ℕ
  | [] => kept.reverse
  | i :: rest =>
    if kept.all fun j => decide (iou (boxes.getD i (0, 0, 0, 0)) (boxes.getD j (0, 0, 0, 0)) < iou_threshold) then
      nmsGreedy boxes iou_threshold (i :: kept) rest
    else
      nmsGreedy boxes iou_threshold kept rest

/-- Modelled from the spec: `cv2.dnn.NMSBoxes` is an external OpenCV routine,
absent from this repository's sources; spec section 4.2 describes it as greedy
class-agnostic non-max suppression — discard candidate indices whose
confidence is below `score_threshold`, sort the rest by confidence descending
with ties broken by lower original index, then keep an index iff its IoU with
every already-kept box is strictly below `iou_threshold`. -/
def NMSBoxes (boxes : List (ℤ × ℤ × ℤ × ℤ)) (confs : List ℚ)
    (score_threshold iou_threshold : ℚ) : List ℕ :=
  let candidates := (List.range confs.length).filter fun i =>
    decide (score_threshold ≤ confs.getD i 0)
  nmsGreedy boxes iou_threshold [] (sortIdx (confOrder confs) candidates)

/-!
## Annotator and `YOLO_Pred.predictions`

Frames and the cv2 drawing primitives are external to the decode logic: a
frame is an abstract value carrying its `shape` (height `row`, width `col`)
and opaque pixel content, and drawing is a capability
`draw : Frame → DrawCmd → Option Frame`.  `draw f c = none` models the cv2
call raising (e.g. on a degenerate box); a successful draw returns the frame
as mutated in place.  One `DrawCmd` bundles the two `cv2.rectangle` calls and
the `cv2.putText` call issued for one surviving index (source lines 126–138).
-/

structure Frame where
  frow : ℕ
  fcol : ℕ
  content : ℕ
deriving DecidableEq

structure DrawCmd where
  box : ℤ × ℤ × ℤ × ℤ
  confPct : ℤ
  className : String
  color : ℕ × ℕ × ℕ
deriving DecidableEq

/-- The drawing loop over the surviving indices (source lines 126–138).  Every
lookup (`boxes_np[ind]`, `classes[ind]`, `self.labels[classes_id]`,
`self.colors[classes_id]`) and every drawing call happens inside the
surrounding `try`; when one raises, the handler returns `image` — which, cv2
drawing being in place, is the frame as annotated so far. -/
def annotLoop (labels : List String) (colors : List (ℕ × ℕ × ℕ))
    (draw : Frame → DrawCmd → Option Frame)
    (boxes : List (ℤ × ℤ × ℤ × ℤ)) (confs : List ℚ) (classIds : List ℕ) :
    Frame → List ℕ → Frame
  | img, [] => img
  | img, ind :: rest =>
    match boxes[ind]?, confs[ind]?, classIds[ind]? with
    | some b, some cf, some cid =>
      match labels[cid]?, colors[cid]? with
      | some nm, some col =>
        match draw img ⟨b, pyInt (cf * 100), nm, col⟩ with
        | some img2 => annotLoop labels colors draw boxes confs classIds img2 rest
        | none => img
      | _, _ => img
    | _, _, _ => img

/-- Embedding of `YOLO_Pred.predictions` (source lines 67–144).  `forward` is the opaque
network capability (`blobFromImage` + `self.yolo.forward()`); `forward f =
none` models that stage raising before any drawing, in which case the handler
returns the untouched image.  In every case the function returns a frame —
the source returns `image` on both the success and the exception path, and
never `None`. -/
def predictions (forward : Frame → Option (List Row))
    (draw : Frame → DrawCmd → Option Frame)
    (labels : List String) (colors : List (ℕ × ℕ × ℕ))
    (conf_thresh class_thresh : ℚ) (image : Frame) : Frame :=
  match forward image with
  | none => image
  | some rows =>
    let B := decode conf_thresh class_thresh image.frow image.fcol rows
    let index := NMSBoxes B.boxes B.confidences (Rat.divInt 1 4) (Rat.divInt 9 20)
    annotLoop labels colors draw B.boxes B.confidences B.classIds image index

/-!
## Output-path construction (`processVideo.py`, lines 131–175)

`output_video_path = os.path.join('videos',
    os.path.basename(input_source).replace(file_extension,
                                           '-output' + file_extension))`
with `file_extension = os.path.splitext(input_source)[1]`.  Python
`str.replace` replaces every occurrence of the pattern; with an empty pattern
it inserts the replacement before every character and at the end.
-/

/-- Does `pat` occur at the very beginning of `s`? -/
def leadMatch : List Char → List Char → Bool
  | [], _ => true
  | _ :: _, [] => false
  | p :: ps, c :: cs => p == c && leadMatch ps cs

/-- Python `str.replace` for a non-empty pattern `p :: ps`: leftmost,
non-overlapping, every occurrence.  The first argument counts characters of a
just-replaced occurrence that remain to be skipped; scanning consumes one
character per step so the recursion is structural. -/
def pyRepGo (p : Char) (ps rep : List Char) : ℕ → List Char → List Char
  | _, [] => []
  | n + 1, _ :: rest => pyRepGo p ps rep n rest
  | 0, c :: rest =>
    if leadMatch (p :: ps) (c :: rest) then
      rep ++ pyRepGo p ps rep ps.length rest
    else
      c :: pyRepGo p ps rep 0 rest

def pyReplaceAux (p : Char) (ps rep s : List Char) : List Char :=
  pyRepGo p ps rep 0 s

/-- Python `str.replace`: for the empty pattern the replacement is inserted
before every character and once at the end (`'live'.replace('', r)` is
`r + 'l' + r + 'i' + r + 'v' + r + 'e' + r`). -/
def pyReplace (s pat rep : List Char) : List Char :=
  match pat with
  | [] => rep ++ s.flatMap fun c => c :: rep
  | p :: ps => pyReplaceAux p ps rep s

/-- Python's `os.path.basename`: the part of the path after the last `'/'`. -/
def afterLastSlash (s : List Char) : List Char :=
  s.foldl (fun acc c => if c = '/' then [] else acc ++ [c]) []

/-- The suffix of `l` starting at its last `'.'` (empty if `l` has no dot). -/
def lastExt : List Char → List Char
  | [] => []
  | c :: cs => if lastExt cs ≠ [] then lastExt cs else if c = '.' then c :: cs else []

/-- Extension of a path basename, as `os.path.splitext` computes it: leading
dots of the basename never start the extension. -/
def extOfBase (b : List Char) : List Char :=
  lastExt (b.drop (b.takeWhile (fun c => c == '.')).length)

/-- Python's `os.path.splitext(path)[1]`. -/
def fileExtension (s : List Char) : List Char :=
  extOfBase (afterLastSlash s)

/-- Python's `os.path.join('videos', x)`: `x` itself when `x` is absolute, otherwise
`'videos/' + x`. -/
def joinVideos (x : List Char) : List Char :=
  match x with
  | '/' :: _ => x
  | _ => "videos/".toList ++ x

/-- Python's `os.makedirs(d, exist_ok=True)` on a filesystem modelled as the
list of existing directories: afterwards the directory exists, whether or not
it already did.  Source lines 131–132 invoke it unconditionally on
`output_dir = 'videos'`. -/
def makedirsExistOk (d : String) (fs : List String) : List String :=
  if d ∈ fs then fs else d :: fs

/-- The `output_video_path` construction (source lines 172–175). -/
def outputVideoPath (input_source : String) : String :=
  let s := input_source.toList
  let file_extension := fileExtension s
  String.mk (joinVideos
    (pyReplace (afterLastSlash s) file_extension
      ("-output".toList ++ file_extension)))

/-- Follows the spec's words, for comparison with `outputVideoPath`: "output
path = input path with its extension-stem segment suffixed `-output`, placed
in a fixed output directory" — i.e. `videos/<stem>-output<ext>` where
`<stem><ext>` is the basename split by `os.path.splitext`. -/
def specOutputPath (input_source : String) : String :=
  let s := input_source.toList
  let ext := fileExtension s
  let base := afterLastSlash s
  let stem := base.take (base.length - ext.length)
  String.mk ("videos/".toList ++ stem ++ "-output".toList ++ ext)

/-!
## The frame pipeline (`processVideo.py`, lines 179–234)

File mode: `cap.read()` succeeds for each frame of the file in order and then
fails, breaking the loop.  The structured records printed to stdout are the
`Event` stream, in print order.  `wfail k = true` models the loop body raising
an unclassified exception at iteration `k` (e.g. `out.write` failing); the
exception propagates to the top-level handler of lines 217–226.
-/

inductive Event where
  | progressUpdate (progress : ℕ) (frame_num : ℕ) (frame_count : ℕ)
  | frameSkip (frame_num : ℕ)
  | errorTerminal (progress : ℕ)
  | outputVideo (path : String)
deriving DecidableEq

/-- Events whose record carries `progress: 100` and an error message: the
per-frame skip record of lines 193–200 and the terminal failure record of
lines 218–223. -/
def Event.isErrorRecord : Event → Bool
  | .frameSkip _ => true
  | .errorTerminal _ => true
  | _ => false

def Event.isFrameSkip : Event → Bool
  | .frameSkip _ => true
  | _ => false

/-- The in-run progress values, in emission order. -/
def progressValues (evs : List Event) : List ℕ :=
  evs.filterMap fun e =>
    match e with
    | .progressUpdate p _ _ => some p
    | _ => none

structure LoopOut where
  events : List Event
  written : List Frame
  raised : Bool
deriving DecidableEq

/-- One `while` pass per remaining frame (source lines 183–215): read, run
`predictions`, skip with an error record if the result is `None`, otherwise
write the frame; in file mode with `frame_count > 0`, bump `frame_num` and
emit a progress record when the integer progress advanced by at least 10
since the last emission.  `k` counts loop iterations for `wfail`. -/
def fileLoopR (pred : Frame → Option Frame) (wfail : ℕ → Bool)
    (frame_count : ℕ) :
    List Frame → ℕ → ℕ → ℕ → LoopOut
  | [], _, _, _ => ⟨[], [], false⟩
  | f :: fs, k, frame_num, last_reported_progress =>
    match pred f with
    | none =>
      let r := fileLoopR pred wfail frame_count fs (k + 1) frame_num
        last_reported_progress
      ⟨Event.frameSkip frame_num :: r.events, r.written, r.raised⟩
    | some pf =>
      if wfail k then ⟨[], [], true⟩
      else if 0 < frame_count then
        let fn := frame_num + 1
        let progress := fn * 100 / frame_count
        if last_reported_progress + 10 ≤ progress then
          let r := fileLoopR pred wfail frame_count fs (k + 1) fn progress
          ⟨Event.progressUpdate progress fn frame_count :: r.events,
           pf :: r.written, r.raised⟩
        else
          let r := fileLoopR pred wfail frame_count fs (k + 1) fn
            last_reported_progress
          ⟨r.events, pf :: r.written, r.raised⟩
      else
        let r := fileLoopR pred wfail frame_count fs (k + 1) frame_num
          last_reported_progress
        ⟨r.events, pf :: r.written, r.raised⟩

structure RunResult where
  events : List Event
  written : List Frame
  capReleased : Bool
  outReleased : Bool
  exitCode : ℕ
deriving DecidableEq

/-- The whole file-mode run from the top of the `try` (line 182) to process
exit (source lines 179–234): run the loop; if an exception escaped it, print
the `progress: 100` terminal error record; in the `finally`, release the
capture and the writer; then print the `output_video` record and
`sys.exit(0)`. -/
def processVideoFile (pred : Frame → Option Frame) (wfail : ℕ → Bool)
    (frame_count : ℕ) (frames : List Frame) (input_source : String) :
    RunResult :=
  let r := fileLoopR pred wfail frame_count frames 0 0 0
  { events := r.events
      ++ (if r.raised then [Event.errorTerminal 100] else [])
      ++ [Event.outputVideo (outputVideoPath input_source)]
  , written := r.written
  , capReleased := true
  , outReleased := true
  , exitCode := 0 }

/-!
## Palette and session state (`YOLO_Pred.__init__` and `update_thresholds`)

`__init__` calls `np.random.seed(10)` and then
`np.random.randint(100, 255, size=(nc, 3))` (source lines 48–50).  NumPy's
global generator is deterministic: seeding fixes its state, and each draw is a
pure function of the state.  The generator is external to this repository, so
its state is abstracted to a natural number with `npSeedState`/`npNext` as a
concrete deterministic model; the only property the source relies on is that
the draw stream after `seed(10)` is a fixed function, which any deterministic
model exhibits.
-/

/-- Seeding the global generator: the resulting state depends only on the
seed, not on the previous state. -/
def npSeedState (seed : ℕ) : ℕ := seed

/-- One draw from the generator: output and successor state. -/
def npNext (s : ℕ) : ℕ × ℕ :=
  let v := (s * 1103515245 + 12345) % 2147483648
  (v, v)

/-- NumPy's `np.random.randint(lo, hi)`: uniform draw in `[lo, hi)`. -/
def npRandInt (lo hi s : ℕ) : ℕ × ℕ :=
  let (v, s') := npNext s
  (lo + v % (hi - lo), s')

/-- The `size=(nc, 3)` draw: `nc` rows of three channel values in
`[100, 255)`. -/
def drawColors : ℕ → ℕ → List (ℕ × ℕ × ℕ) × ℕ
  | 0, s => ([], s)
  | n + 1, s =>
    let (r, s1) := npRandInt 100 255 s
    let (g, s2) := npRandInt 100 255 s1
    let (b, s3) := npRandInt 100 255 s2
    let (rest, s4) := drawColors n s3
    ((r, g, b) :: rest, s4)

/-- The mutable state of one `YOLO_Pred` instance. -/
structure Session where
  labels : List String
  nc : ℕ
  conf_thresh : ℚ
  class_thresh : ℚ
  colors : List (ℕ × ℕ × ℕ)
deriving DecidableEq

/-- Embedding of `YOLO_Pred.__init__` (source lines 9–50), given the incoming global
generator state `g`: reseed with the fixed seed 10, then draw the palette.
Returns the constructed session and the generator state it leaves behind. -/
def initSession (g : ℕ) (labels : List String) (nc : ℕ)
    (conf_thresh class_thresh : ℚ) : Session × ℕ :=
  let g0 := npSeedState 10
  let (cols, g1) := drawColors nc g0
  (⟨labels, nc, conf_thresh, class_thresh, cols⟩, g1)

/-- Embedding of `YOLO_Pred.update_thresholds` (source lines 52–65): the only mutation of a
session after construction. -/
def update_thresholds (s : Session) (conf_thresh class_thresh : Option ℚ) :
    Session :=
  let s1 := match conf_thresh with
    | some c => { s with conf_thresh := c }
    | none => s
  match class_thresh with
  | some k => { s1 with class_thresh := k }
  | none => s1

/-- Embedding of `YOLO_Pred.generate_colors` (source lines 146–156): a read-only lookup of
the palette built at construction time. -/
def generate_colors (s : Session) (id : ℕ) : Option (ℕ × ℕ × ℕ) :=
  s.colors[id]?

/-- The main loop with the session threaded through: the loop body (source
lines 183–215) only calls `predictions` on the session and never assigns any
of its fields, so the session object is passed through unchanged. -/
def runFramesSession (forward : Frame → Option (List Row))
    (draw : Frame → DrawCmd → Option Frame) (s : Session) :
    List Frame → Session × List Frame
  | [] => (s, [])
  | f :: fs =>
    let pf := predictions forward draw s.labels s.colors s.conf_thresh
      s.class_thresh f
    let r := runFramesSession forward draw s fs
    (r.1, pf :: r.2)

/-!
## Decoder theorems
-/

/-- Characterization of the decode loop: each of the three parallel sequences
is the gated row list mapped through the corresponding per-row function. -/
theorem decode_eq_filter (ct kt : ℚ) (R C : ℕ) (rows : List Row) :
    decode ct kt R C rows =
      ⟨(rows.filter (rowGate ct kt)).map (decodeRow R C),
       (rows.filter (rowGate ct kt)).map Row.conf,
       (rows.filter (rowGate ct kt)).map Row.argmaxScore⟩ := by
  induction rows with
  | nil => rfl
  | cons r rest ih =>
    simp only [decode, List.filter_cons, rowGate]
    by_cases h1 : ct < r.conf
    · by_cases h2 : kt < r.maxScore
      · simp [h1, h2, ih]
      · simp [h1, h2, ih]
    · simp [h1, ih]

/-- A row failing the objectness gate contributes nothing to the decode
output. -/
theorem decode_drop_low_objectness (ct kt : ℚ) (R C : ℕ)
    (pre post : List Row) (r : Row) (h : r.conf ≤ ct) :
    decode ct kt R C (pre ++ r :: post) = decode ct kt R C (pre ++ post) := by
  have hg : rowGate ct kt r = false := by
    simp [rowGate, not_lt.mpr h]
  rw [decode_eq_filter, decode_eq_filter]
  simp [List.filter_append, List.filter_cons, hg]

/-- C4: the decoder applies the objectness gate strictly before the class
gate: a row appears in the decoded output only if its objectness strictly
exceeds `conf_thresh` and its maximum class score strictly exceeds
`class_thresh`; a row with objectness at most `conf_thresh` never appears in
the output, regardless of its class scores. -/
theorem c4_objectness_gate_first (ct kt : ℚ) (R C : ℕ)
    (pre post : List Row) (r : Row) (rows : List Row) (h : r.conf ≤ ct) :
    decode ct kt R C (pre ++ r :: post) = decode ct kt R C (pre ++ post) ∧
    (decode ct kt R C rows).confidences =
      (rows.filter (rowGate ct kt)).map Row.conf := by
  refine ⟨decode_drop_low_objectness ct kt R C pre post r h, ?_⟩
  rw [decode_eq_filter]

/-- Witness for C4 at a concrete input: a row with objectness `1/4 ≤ 2/5` and
a perfect class score still decodes to nothing. -/
theorem c4_objectness_gate_first_witness :
    (⟨0, 0, 10, 10, Rat.divInt 1 4, 1, []⟩ : Row).conf ≤ Rat.divInt 2 5 ∧
    (decode (Rat.divInt 2 5) (Rat.divInt 1 4) 480 640
        ([] ++ (⟨0, 0, 10, 10, Rat.divInt 1 4, 1, []⟩ : Row) ::
          [⟨50, 50, 20, 20, 1, 1, []⟩]) =
      decode (Rat.divInt 2 5) (Rat.divInt 1 4) 480 640
        ([] ++ [⟨50, 50, 20, 20, 1, 1, []⟩])) ∧
    (decode (Rat.divInt 2 5) (Rat.divInt 1 4) 480 640
        [⟨50, 50, 20, 20, 1, 1, []⟩]).confidences =
      ([⟨50, 50, 20, 20, 1, 1, []⟩].filter
        (rowGate (Rat.divInt 2 5) (Rat.divInt 1 4))).map Row.conf := by
  refine ⟨by decide, ?_⟩
  exact c4_objectness_gate_first (Rat.divInt 2 5) (Rat.divInt 1 4) 480 640
    [] [⟨50, 50, 20, 20, 1, 1, []⟩] ⟨0, 0, 10, 10, Rat.divInt 1 4, 1, []⟩
    [⟨50, 50, 20, 20, 1, 1, []⟩] (by decide)

/-- Follows the spec's words for the box transform: `x_factor` and `y_factor`
both equal `max(original_width, original_height) / 640`, and the box is
`left = (cx - 0.5 w)·x_factor`, `top = (cy - 0.5 h)·y_factor`,
`width = w·x_factor`, `height = h·y_factor`, each truncated to an integer. -/
def specBox (origW origH : ℕ) (r : Row) : ℤ × ℤ × ℤ × ℤ :=
  let x_factor : ℚ := ratDiv ((max origW origH : ℕ) : ℚ) 640
  let y_factor : ℚ := ratDiv ((max origW origH : ℕ) : ℚ) 640
  (pyInt ((r.cx - Rat.divInt 1 2 * r.w) * x_factor),
   pyInt ((r.cy - Rat.divInt 1 2 * r.h) * y_factor),
   pyInt (r.w * x_factor),
   pyInt (r.h * y_factor))

theorem decodeRow_eq_specBox (imgRow imgCol : ℕ) (r : Row) :
    decodeRow imgRow imgCol r = specBox imgCol imgRow r := by
  simp only [decodeRow, specBox, Nat.max_comm imgCol imgRow]

/-- C7: every decoded box is computed by the spec's formula — with `R` the
original height (`image.shape[0]`) and `C` the original width
(`image.shape[1]`), both scale factors are `max(C, R) / 640` (the image is
letterboxed into the top-left corner of a zero-filled square of that side),
and each coordinate is truncated to an integer. -/
theorem c7_box_transform (ct kt : ℚ) (R C : ℕ) (rows : List Row) :
    (decode ct kt R C rows).boxes =
      (rows.filter (rowGate ct kt)).map (specBox C R) := by
  rw [decode_eq_filter]
  simp only [List.map_inj_left]
  intro r _
  exact decodeRow_eq_specBox R C r

/-!
## BoxSet invariants (C8)
-/

theorem mem_insertIdx' {le : ℕ → ℕ → Bool} {i x : ℕ} :
    ∀ {l : List ℕ}, x ∈ insertIdx' le i l → x = i ∨ x ∈ l := by
  intro l
  induction l with
  | nil => intro h; simpa [insertIdx'] using h
  | cons j t ih =>
    intro h
    simp only [insertIdx'] at h
    split at h
    · rcases List.mem_cons.mp h with h1 | h1
      · exact Or.inl h1
      · exact Or.inr h1
    · rcases List.mem_cons.mp h with h1 | h1
      · exact Or.inr (by simp [h1])
      · rcases ih h1 with h2 | h2
        · exact Or.inl h2
        · exact Or.inr (by simp [h2])

theorem mem_sortIdx {le : ℕ → ℕ → Bool} {x : ℕ} :
    ∀ {l : List ℕ}, x ∈ sortIdx le l → x ∈ l := by
  intro l
  induction l with
  | nil => intro h; simpa [sortIdx] using h
  | cons i t ih =>
    intro h
    rcases mem_insertIdx' h with h1 | h1
    · simp [h1]
    · simp [ih h1]

theorem mem_nmsGreedy {boxes : List (ℤ × ℤ × ℤ × ℤ)} {it : ℚ} {x : ℕ} :
    ∀ {l kept : List ℕ}, x ∈ nmsGreedy boxes it kept l → x ∈ kept ∨ x ∈ l := by
  intro l
  induction l with
  | nil =>
    intro kept h
    simp only [nmsGreedy] at h
    exact Or.inl (List.mem_reverse.mp h)
  | cons i t ih =>
    intro kept h
    simp only [nmsGreedy] at h
    split at h
    · rcases ih h with h1 | h1
      · rcases List.mem_cons.mp h1 with h2 | h2
        · exact Or.inr (by simp [h2])
        · exact Or.inl h2
      · exact Or.inr (by simp [h1])
    · rcases ih h with h1 | h1
      · exact Or.inl h1
      · exact Or.inr (by simp [h1])

/-- Every index returned by the suppressor is a valid index into the
confidence list it was given. -/
theorem mem_NMSBoxes_lt {boxes : List (ℤ × ℤ × ℤ × ℤ)} {confs : List ℚ}
    {st it : ℚ} {x : ℕ} (h : x ∈ NMSBoxes boxes confs st it) :
    x < confs.length := by
  unfold NMSBoxes at h
  rcases mem_nmsGreedy h with h1 | h1
  · simp at h1
  · have h2 := mem_sortIdx h1
    have h3 := List.mem_filter.mp h2
    exact List.mem_range.mp h3.1

/-- C8: the three parallel sequences produced by decoding have equal length,
and every index surviving suppression is a valid index into all three. -/
theorem c8_boxset_invariant (ct kt : ℚ) (R C : ℕ) (rows : List Row)
    (st it : ℚ) :
    (decode ct kt R C rows).boxes.length =
      (decode ct kt R C rows).confidences.length ∧
    (decode ct kt R C rows).confidences.length =
      (decode ct kt R C rows).classIds.length ∧
    ((NMSBoxes (decode ct kt R C rows).boxes
        (decode ct kt R C rows).confidences st it).all fun i =>
      decide (i < (decode ct kt R C rows).boxes.length) &&
      decide (i < (decode ct kt R C rows).confidences.length) &&
      decide (i < (decode ct kt R C rows).classIds.length)) = true := by
  have hlen : (decode ct kt R C rows).boxes.length =
      (decode ct kt R C rows).confidences.length ∧
      (decode ct kt R C rows).confidences.length =
        (decode ct kt R C rows).classIds.length := by
    rw [decode_eq_filter]
    simp
  refine ⟨hlen.1, hlen.2, ?_⟩
  rw [List.all_eq_true]
  intro i hi
  have h := mem_NMSBoxes_lt hi
  simp only [Bool.and_eq_true, decide_eq_true_eq]
  exact ⟨⟨by omega, h⟩, by omega⟩

/-!
## Pipeline lemmas
-/

/-- In every run of the loop, from any starting `last_reported_progress`, the
emitted progress values grow by at least 10 at each emission. -/
theorem chain_progress (pred : Frame → Option Frame) (wfail : ℕ → Bool)
    (fc : ℕ) :
    ∀ (frames : List Frame) (k fn last : ℕ),
      List.Chain (fun a b => a + 10 ≤ b) last
        (progressValues (fileLoopR pred wfail fc frames k fn last).events) := by
  intro frames
  induction frames with
  | nil => intro k fn last; simp [fileLoopR, progressValues]
  | cons f fs ih =>
    intro k fn last
    simp only [fileLoopR]
    cases hp : pred f with
    | none =>
      simpa [progressValues] using ih (k + 1) fn last
    | some pf =>
      by_cases hw : wfail k
      · simp [hw, progressValues]
      · by_cases hfc : 0 < fc
        · by_cases hemit : last + 10 ≤ (fn + 1) * 100 / fc
          · simp only [hw, hfc, hemit, if_true, if_false, Bool.false_eq_true,
              progressValues, List.filterMap_cons]
            exact List.Chain.cons hemit (ih (k + 1) (fn + 1) ((fn + 1) * 100 / fc))
          · simpa [hw, hfc, hemit, progressValues] using ih (k + 1) (fn + 1) last
        · simpa [hw, hfc, progressValues] using ih (k + 1) fn last

/-- Every progress record emitted by the loop carries
`progress = frame_num * 100 / frame_count` (integer division, i.e. the floor)
for the run's `frame_count`. -/
theorem loop_progress_formula (pred : Frame → Option Frame) (wfail : ℕ → Bool)
    (fc : ℕ) :
    ∀ (frames : List Frame) (k fn last : ℕ),
      ((fileLoopR pred wfail fc frames k fn last).events.all fun e =>
        match e with
        | Event.progressUpdate p n t => decide (p = n * 100 / t) && decide (t = fc)
        | _ => true) = true := by
  intro frames
  induction frames with
  | nil => intro k fn last; simp [fileLoopR]
  | cons f fs ih =>
    intro k fn last
    simp only [fileLoopR]
    cases hp : pred f with
    | none =>
      simpa using ih (k + 1) fn last
    | some pf =>
      by_cases hw : wfail k
      · simp [hw]
      · by_cases hfc : 0 < fc
        · by_cases hemit : last + 10 ≤ (fn + 1) * 100 / fc
          · simp only [hw, hfc, hemit, if_true, if_false, Bool.false_eq_true,
              List.all_cons, Bool.and_eq_true]
            exact ⟨by simp, ih (k + 1) (fn + 1) ((fn + 1) * 100 / fc)⟩
          · simpa [hw, hfc, hemit] using ih (k + 1) (fn + 1) last
        · simpa [hw, hfc] using ih (k + 1) fn last

/-- When the per-frame stage is total (`pred` always returns a frame, as the
source `predictions` does) and nothing raises, the loop writes exactly the
processed frames in order, never takes the skip branch, and never raises. -/
theorem loop_total_run (P : Frame → Frame) (fc : ℕ) :
    ∀ (frames : List Frame) (k fn last : ℕ),
      (fileLoopR (fun f => some (P f)) (fun _ => false) fc frames k fn last).written
          = frames.map P ∧
      (fileLoopR (fun f => some (P f)) (fun _ => false) fc frames k fn last).raised
          = false ∧
      ((fileLoopR (fun f => some (P f)) (fun _ => false) fc frames k fn
          last).events.countP Event.isFrameSkip) = 0 := by
  intro frames
  induction frames with
  | nil => intro k fn last; simp [fileLoopR]
  | cons f fs ih =>
    intro k fn last
    simp only [fileLoopR]
    by_cases hfc : 0 < fc
    · by_cases hemit : last + 10 ≤ (fn + 1) * 100 / fc
      · simpa [hfc, hemit, List.countP_cons, Event.isFrameSkip]
          using ih (k + 1) (fn + 1) ((fn + 1) * 100 / fc)
      · simpa [hfc, hemit] using ih (k + 1) (fn + 1) last
    · simpa [hfc] using ih (k + 1) fn last

/-- With a total per-frame stage, the loop itself prints no error records,
whatever raises later: its events are all progress records. -/
theorem loop_no_error_records (P : Frame → Frame) (wfail : ℕ → Bool) (fc : ℕ) :
    ∀ (frames : List Frame) (k fn last : ℕ),
      ((fileLoopR (fun f => some (P f)) wfail fc frames k fn
          last).events.countP Event.isErrorRecord) = 0 := by
  intro frames
  induction frames with
  | nil => intro k fn last; simp [fileLoopR]
  | cons f fs ih =>
    intro k fn last
    simp only [fileLoopR]
    by_cases hw : wfail k
    · simp [hw]
    · by_cases hfc : 0 < fc
      · by_cases hemit : last + 10 ≤ (fn + 1) * 100 / fc
        · simpa [hw, hfc, hemit, List.countP_cons, Event.isErrorRecord]
            using ih (k + 1) (fn + 1) ((fn + 1) * 100 / fc)
        · simpa [hw, hfc, hemit] using ih (k + 1) (fn + 1) last
      · simpa [hw, hfc] using ih (k + 1) fn last

/-- C6: in file mode, starting from `last_reported_progress = 0`, the emitted
in-run progress values form a chain in which each value exceeds its
predecessor by at least 10 (hence the sequence is non-decreasing), and every
emitted value is `floor(frame_num * 100 / frame_count)` for the run's
`frame_count` — so an event is emitted only when that floor has advanced by at
least 10 since the last emission. -/
theorem c6_progress_coarse_monotone (pred : Frame → Option Frame)
    (wfail : ℕ → Bool) (fc : ℕ) (frames : List Frame) :
    List.Chain (fun a b => a + 10 ≤ b) 0
      (progressValues (fileLoopR pred wfail fc frames 0 0 0).events) ∧
    ((fileLoopR pred wfail fc frames 0 0 0).events.all fun e =>
      match e with
      | Event.progressUpdate p n t => decide (p = n * 100 / t) && decide (t = fc)
      | _ => true) = true :=
  ⟨chain_progress pred wfail fc frames 0 0 0,
   loop_progress_formula pred wfail fc frames 0 0 0⟩

/-- C10: for every frame, `predictions` returns a frame (both the success and
the exception path of the source return `image`), so the pipeline branch for
`processed_frame is None` is never taken — the run emits no per-frame skip
record — and every successfully read frame is written to the sink exactly
once, in order. -/
theorem c10_skip_branch_unreachable (forward : Frame → Option (List Row))
    (draw : Frame → DrawCmd → Option Frame) (labels : List String)
    (colors : List (ℕ × ℕ × ℕ)) (ct kt : ℚ) (fc : ℕ) (frames : List Frame)
    (path : String) :
    (∀ image, (some (predictions forward draw labels colors ct kt image) :
        Option Frame) ≠ none) ∧
    (processVideoFile
        (fun f => some (predictions forward draw labels colors ct kt f))
        (fun _ => false) fc frames path).events.countP Event.isFrameSkip = 0 ∧
    (processVideoFile
        (fun f => some (predictions forward draw labels colors ct kt f))
        (fun _ => false) fc frames path).written =
      frames.map (predictions forward draw labels colors ct kt) := by
  have h := loop_total_run (predictions forward draw labels colors ct kt) fc
    frames 0 0 0
  refine ⟨fun image => by simp, ?_, ?_⟩
  · simp only [processVideoFile, List.countP_append, h.2.1, h.2.2]
    simp [Event.isFrameSkip]
  · simp only [processVideoFile, h.1]

/-- C1 counterexample: a run whose loop body raises (here at the first
iteration) still exits with status 0 — the source prints the terminal error
record, runs the `finally` releases, then falls through to print the
`output_video` record and call `sys.exit(0)`.  This contradicts the claimed
non-zero exit status. -/
theorem c1_counterexample :
    (fileLoopR (fun f => some f) (fun _ => true) 1 [⟨480, 640, 0⟩] 0 0 0).raised
        = true ∧
    (processVideoFile (fun f => some f) (fun _ => true) 1 [⟨480, 640, 0⟩]
        ("uploads/a.mp4")).exitCode = 0 := by
  decide

/-- C1 as amended: when an exception escapes the main loop, the run reports
exactly one error record, that record is the terminal `progress = 100` error
event, both the capture and the writer are released — but the process then
prints the `output_video` record and exits with status 0, not a non-zero
status. -/
theorem c1_whole_run_failure_cleanup (forward : Frame → Option (List Row))
    (draw : Frame → DrawCmd → Option Frame) (labels : List String)
    (colors : List (ℕ × ℕ × ℕ)) (ct kt : ℚ) (wfail : ℕ → Bool) (fc : ℕ)
    (frames : List Frame) (path : String)
    (h : (fileLoopR
        (fun f => some (predictions forward draw labels colors ct kt f))
        wfail fc frames 0 0 0).raised = true) :
    (processVideoFile
        (fun f => some (predictions forward draw labels colors ct kt f))
        wfail fc frames path).events.countP Event.isErrorRecord = 1 ∧
    Event.errorTerminal 100 ∈ (processVideoFile
        (fun f => some (predictions forward draw labels colors ct kt f))
        wfail fc frames path).events ∧
    (processVideoFile
        (fun f => some (predictions forward draw labels colors ct kt f))
        wfail fc frames path).capReleased = true ∧
    (processVideoFile
        (fun f => some (predictions forward draw labels colors ct kt f))
        wfail fc frames path).outReleased = true ∧
    (processVideoFile
        (fun f => some (predictions forward draw labels colors ct kt f))
        wfail fc frames path).exitCode = 0 := by
  have hc := loop_no_error_records
    (predictions forward draw labels colors ct kt) wfail fc frames 0 0 0
  refine ⟨?_, ?_, rfl, rfl, rfl⟩
  · simp only [processVideoFile, h, if_true, List.countP_append, hc]
    simp [Event.isErrorRecord]
  · simp [processVideoFile, h]

/-- Witness for C1: a concrete one-frame run whose first iteration raises. -/
theorem c1_whole_run_failure_cleanup_witness :
    (processVideoFile
        (fun f => some (predictions (fun _ => none) (fun f _ => some f) [] []
          0 0 f))
        (fun _ => true) 1 [⟨480, 640, 0⟩]
        ("uploads/a.mp4")).events.countP Event.isErrorRecord = 1 ∧
    Event.errorTerminal 100 ∈ (processVideoFile
        (fun f => some (predictions (fun _ => none) (fun f _ => some f) [] []
          0 0 f))
        (fun _ => true) 1 [⟨480, 640, 0⟩] ("uploads/a.mp4")).events ∧
    (processVideoFile
        (fun f => some (predictions (fun _ => none) (fun f _ => some f) [] []
          0 0 f))
        (fun _ => true) 1 [⟨480, 640, 0⟩] ("uploads/a.mp4")).capReleased = true ∧
    (processVideoFile
        (fun f => some (predictions (fun _ => none) (fun f _ => some f) [] []
          0 0 f))
        (fun _ => true) 1 [⟨480, 640, 0⟩] ("uploads/a.mp4")).outReleased = true ∧
    (processVideoFile
        (fun f => some (predictions (fun _ => none) (fun f _ => some f) [] []
          0 0 f))
        (fun _ => true) 1 [⟨480, 640, 0⟩] ("uploads/a.mp4")).exitCode = 0 :=
  c1_whole_run_failure_cleanup (fun _ => none) (fun f _ => some f) [] [] 0 0
    (fun _ => true) 1 [⟨480, 640, 0⟩] ("uploads/a.mp4") (by decide)

/-!
## Per-frame failure recovery (C2)
-/

/-- Reachability by successful in-place drawing operations: `DrawSteps draw f
g` holds when `g` is obtained from `f` by zero or more draws that succeeded.
The frame the exception handler returns is always of this form — the input
frame with exactly the annotations applied before the failure point. -/
inductive DrawSteps (draw : Frame → DrawCmd → Option Frame) :
    Frame → Frame → Prop
  | refl (f : Frame) : DrawSteps draw f f
  | step {f f' g : Frame} (c : DrawCmd) (h : draw f c = some f')
      (t : DrawSteps draw f' g) : DrawSteps draw f g

theorem drawSteps_annotLoop (labels : List String)
    (colors : List (ℕ × ℕ × ℕ)) (draw : Frame → DrawCmd → Option Frame)
    (boxes : List (ℤ × ℤ × ℤ × ℤ)) (confs : List ℚ) (classIds : List ℕ) :
    ∀ (inds : List ℕ) (img : Frame),
      DrawSteps draw img
        (annotLoop labels colors draw boxes confs classIds img inds) := by
  intro inds
  induction inds with
  | nil => intro img; exact DrawSteps.refl img
  | cons i t ih =>
    intro img
    simp only [annotLoop]
    split
    all_goals try exact DrawSteps.refl img
    split
    all_goals try exact DrawSteps.refl img
    split
    all_goals try exact DrawSteps.refl img
    rename_i img2 hd
    exact DrawSteps.step _ hd (ih img2)

theorem drawSteps_predictions (forward : Frame → Option (List Row))
    (draw : Frame → DrawCmd → Option Frame) (labels : List String)
    (colors : List (ℕ × ℕ × ℕ)) (ct kt : ℚ) (image : Frame) :
    DrawSteps draw image
      (predictions forward draw labels colors ct kt image) := by
  unfold predictions
  cases forward image with
  | none => exact DrawSteps.refl image
  | some rows => exact drawSteps_annotLoop _ _ _ _ _ _ _ image

/-- C2 as amended: when the decode/suppress/annotate stage fails on a frame,
the frame written to the output is the input frame with exactly the
annotations drawn before the failure point still applied (it equals the
pre-annotation frame only when the failure precedes the first drawing
operation); the failure is only reported locally and the pipeline continues:
every frame is still written, no error record is printed, and the run does not
abort. -/
theorem c2_failed_frame_partial_annotations (forward : Frame → Option (List Row))
    (draw : Frame → DrawCmd → Option Frame) (labels : List String)
    (colors : List (ℕ × ℕ × ℕ)) (ct kt : ℚ) (fc : ℕ) (frames : List Frame)
    (path : String) :
    (∀ image, DrawSteps draw image
      (predictions forward draw labels colors ct kt image)) ∧
    (processVideoFile
        (fun f => some (predictions forward draw labels colors ct kt f))
        (fun _ => false) fc frames path).written.length = frames.length ∧
    (processVideoFile
        (fun f => some (predictions forward draw labels colors ct kt f))
        (fun _ => false) fc frames path).events.countP Event.isErrorRecord
      = 0 ∧
    (processVideoFile
        (fun f => some (predictions forward draw labels colors ct kt f))
        (fun _ => false) fc frames path).exitCode = 0 := by
  have h := loop_total_run (predictions forward draw labels colors ct kt) fc
    frames 0 0 0
  have hc := loop_no_error_records
    (predictions forward draw labels colors ct kt) (fun _ => false) fc frames
    0 0 0
  refine ⟨fun image => drawSteps_predictions _ _ _ _ _ _ image, ?_, ?_, rfl⟩
  · simp [processVideoFile, h.1]
  · simp only [processVideoFile, h.2.1, List.countP_append, hc]
    simp [Event.isErrorRecord]

/-- The detector output used in the C2 counterexample: two rows passing both
gates; the second decodes to a box of negative width. -/
def c2Forward : Frame → Option (List Row) := fun _ => some
  [⟨50, 50, 20, 20, Rat.divInt 9 10, Rat.divInt 9 10, []⟩,
   ⟨300, 300, -20, 20, Rat.divInt 1 2, Rat.divInt 8 10, []⟩]

/-- The drawing capability used in the C2 counterexample: drawing a box of
negative width raises; any other draw succeeds and changes the pixel
content. -/
def c2Draw : Frame → DrawCmd → Option Frame := fun f c =>
  if c.box.2.2.1 < 0 then none else some ⟨f.frow, f.fcol, f.content + 1⟩

def c2Labels : List String := ["asset"]

def c2Colors : List (ℕ × ℕ × ℕ) := [(120, 130, 140)]

def c2Frame0 : Frame := ⟨640, 640, 0⟩

def c2Pred : Frame → Frame :=
  predictions c2Forward c2Draw c2Labels c2Colors (Rat.divInt 2 5)
    (Rat.divInt 1 4)

section
attribute [local semireducible] Rat.mul Rat.add Rat.sub Rat.inv

/-- C2 counterexample: on this frame the annotation stage fails (the second
surviving box has negative width, so its draw raises), yet the frame written
is not pixel-for-pixel the pre-annotation input — the first box had already
been drawn in place — while the pipeline does continue: both frames of the run
are written and no error record is printed. -/
theorem c2_counterexample :
    c2Draw ⟨640, 640, 1⟩ ⟨(310, 290, -20, 20), 50, "asset", (120, 130, 140)⟩
        = none ∧
    c2Pred c2Frame0 ≠ c2Frame0 ∧
    (processVideoFile (fun f => some (c2Pred f)) (fun _ => false) 2
        [c2Frame0, c2Frame0] ("uploads/b.mp4")).written.length = 2 ∧
    (processVideoFile (fun f => some (c2Pred f)) (fun _ => false) 2
        [c2Frame0, c2Frame0] ("uploads/b.mp4")).events.countP
        Event.isErrorRecord = 0 := by
  decide

end

/-!
## End-to-end scenario with zero detections (C3)
-/

/-- 100 file frames of a 640x480 video. -/
def c3Frames : List Frame := (List.range 100).map fun i => ⟨480, 640, i⟩

/-- A detector whose single candidate row fails the objectness gate on every
frame: zero qualifying detections. -/
def c3Forward : Frame → Option (List Row) := fun _ =>
  some [⟨0, 0, 0, 0, 0, 0, []⟩]

def c3Draw : Frame → DrawCmd → Option Frame := fun f _ => some f

/-- The per-frame stage of the C3 run, with the source's default thresholds
`conf_thresh = 0.4`, `class_thresh = 0.25`. -/
def c3Pred : Frame → Option Frame := fun f =>
  some (predictions c3Forward c3Draw [] [] (Rat.divInt 2 5) (Rat.divInt 1 4) f)

/-- The C3 run: file input `uploads/sample.mp4`, `frame_count = 100`, 100
frames, no whole-run failure. -/
def c3Run : RunResult :=
  processVideoFile c3Pred (fun _ => false) 100 c3Frames ("uploads/sample.mp4")

section
attribute [local semireducible] Rat.mul Rat.add Rat.sub Rat.inv

/-- C3 counterexample: in this exact scenario the run emits ten in-run
progress events, not nine — at frame 100 the progress `100` exceeds the last
reported value `90` by exactly 10, so a tenth event with `progress = 100` is
printed. -/
theorem c3_counterexample :
    (progressValues c3Run.events).length = 10 ∧
    Event.progressUpdate 100 100 100 ∈ c3Run.events := by
  decide

/-- C3 as amended: the 100-frame run with zero qualifying detections writes
all 100 frames unannotated, emits exactly ten progress events with values
10, 20, ..., 100, prints no error record, ends with the terminal record naming
`videos/sample-output.mp4`, and exits with status 0. -/
theorem c3_zero_detection_run :
    c3Run.written = c3Frames ∧
    progressValues c3Run.events =
      [10, 20, 30, 40, 50, 60, 70, 80, 90, 100] ∧
    c3Run.events.countP Event.isErrorRecord = 0 ∧
    c3Run.events.getLast? =
      some (Event.outputVideo ("videos/sample-output.mp4")) ∧
    c3Run.exitCode = 0 := by
  decide

end

/-!
## Palette determinism (C9)
-/

theorem runFramesSession_fst (forward : Frame → Option (List Row))
    (draw : Frame → DrawCmd → Option Frame) (s : Session) :
    ∀ frames : List Frame, (runFramesSession forward draw s frames).1 = s := by
  intro frames
  induction frames with
  | nil => rfl
  | cons f fs ih => simpa [runFramesSession] using ih

/-- C9: the palette is a deterministic function of the fixed seed and `nc`:
because `__init__` reseeds the global generator with the constant 10 before
drawing, two independently constructed sessions — whatever generator state
they start from and whatever labels or thresholds they carry — assign
identical colors to every class id as long as `nc` agrees; and the color for a
class id never changes within a run: the only post-construction mutator
(`update_thresholds`) leaves the palette untouched, and the frame loop passes
the session through unchanged. -/
theorem c9_palette_deterministic (g g' : ℕ) (labels labels' : List String)
    (nc : ℕ) (ct kt ct' kt' : ℚ) :
    (initSession g labels nc ct kt).1.colors =
      (initSession g' labels' nc ct' kt').1.colors ∧
    (∀ id, generate_colors (initSession g labels nc ct kt).1 id =
      generate_colors (initSession g' labels' nc ct' kt').1 id) ∧
    (∀ s c k, (update_thresholds s c k).colors = s.colors) ∧
    (∀ (forward : Frame → Option (List Row))
        (draw : Frame → DrawCmd → Option Frame) (s : Session)
        (frames : List Frame),
      (runFramesSession forward draw s frames).1.colors = s.colors) := by
  refine ⟨rfl, fun id => rfl, ?_, ?_⟩
  · intro s c k
    unfold update_thresholds
    cases c <;> cases k <;> rfl
  · intro forward draw s frames
    rw [runFramesSession_fst]

/-!
## Output-path naming (C5)
-/

theorem leadMatch_self_append : ∀ (l t : List Char), leadMatch l (l ++ t) = true := by
  intro l
  induction l with
  | nil => intro t; rfl
  | cons c cs ih => intro t; simp [leadMatch, ih]

theorem pyRepGo_skip_all (p : Char) (ps rep : List Char) :
    ∀ (l : List Char) (n : ℕ), l.length ≤ n → pyRepGo p ps rep n l = [] := by
  intro l
  induction l with
  | nil => intro n _; cases n <;> rfl
  | cons c cs ih =>
    intro n hn
    cases n with
    | zero => simp at hn
    | succ m => exact ih m (by simpa using hn)

/-- When the pattern occurs in `s ++ pat` only as its final segment,
replacement rewrites exactly that occurrence. -/
theorem pyRepGo_tail_only (p : Char) (ps rep : List Char) :
    ∀ s : List Char,
      (∀ i, i < s.length →
        leadMatch (p :: ps) ((s ++ p :: ps).drop i) = false) →
      pyRepGo p ps rep 0 (s ++ p :: ps) = s ++ rep := by
  intro s
  induction s with
  | nil =>
    intro _
    have h1 : leadMatch (p :: ps) (p :: ps) = true := by
      simpa using leadMatch_self_append (p :: ps) []
    simp only [List.nil_append, pyRepGo, h1, if_true]
    rw [pyRepGo_skip_all p ps rep ps ps.length le_rfl, List.append_nil]
  | cons c cs ih =>
    intro hocc
    have h0 := hocc 0 (by simp)
    simp only [List.cons_append, List.drop_zero] at h0
    simp only [List.cons_append, pyRepGo, List.append_eq, h0,
      Bool.false_eq_true, if_false]
    rw [ih fun i hi => by
      have := hocc (i + 1) (by simpa using Nat.succ_lt_succ hi)
      simpa [List.cons_append, List.drop_succ_cons] using this]

theorem foldl_slash_reset :
    ∀ (l acc : List Char), '/' ∉ l →
      l.foldl (fun acc c => if c = '/' then [] else acc ++ [c]) acc
        = acc ++ l := by
  intro l
  induction l with
  | nil => intro acc _; simp
  | cons c cs ih =>
    intro acc hl
    have hc : c ≠ '/' := fun h => hl (by simp [h])
    have hcs : '/' ∉ cs := fun h => hl (List.mem_cons_of_mem _ h)
    simp only [List.foldl_cons, if_neg hc]
    simpa using ih (acc ++ [c]) hcs

theorem afterLastSlash_last_component (d b : List Char) (hb : '/' ∉ b) :
    afterLastSlash (d ++ '/' :: b) = b := by
  unfold afterLastSlash
  rw [List.foldl_append, List.foldl_cons, if_pos rfl]
  simpa using foldl_slash_reset b [] hb

theorem lastExt_of_no_dot : ∀ {l : List Char}, '.' ∉ l → lastExt l = [] := by
  intro l
  induction l with
  | nil => intro _; rfl
  | cons c cs ih =>
    intro hl
    have hc : c ≠ '.' := fun h => hl (by simp [h])
    have hcs : '.' ∉ cs := fun h => hl (List.mem_cons_of_mem _ h)
    simp [lastExt, ih hcs, hc]

theorem lastExt_final_ext (e : List Char) (he : '.' ∉ e) :
    ∀ s : List Char, lastExt (s ++ '.' :: e) = '.' :: e := by
  intro s
  induction s with
  | nil => simp [lastExt, lastExt_of_no_dot he]
  | cons c cs ih => simp [lastExt, ih]

/-- C5 as amended: the code replaces every occurrence of the extension
substring in the basename with `-output<ext>`; when the extension occurs in
the basename only as its final segment (and the basename neither begins with a
dot nor a slash), this yields exactly `videos/<stem>-output<ext>` and agrees
with the spec's stem-suffixing rule; the fixed directory is `videos`, and in
live mode the writer is opened on a fixed path — file name
`-outputl-outputi-outputv-outpute-output` inside `videos` — because the empty
extension of the literal input `live` makes `str.replace` insert `-output` at
every position. -/
theorem c5_output_naming (dir stem2 e : List Char) (c : Char)
    (hcdot : c ≠ '.') (hcslash : c ≠ '/')
    (hslash : '/' ∉ (c :: stem2) ++ '.' :: e)
    (hedot : '.' ∉ e)
    (hocc : ∀ i, i < (c :: stem2).length →
      leadMatch ('.' :: e) (((c :: stem2) ++ '.' :: e).drop i) = false) :
    outputVideoPath (String.mk (dir ++ '/' :: ((c :: stem2) ++ '.' :: e))) =
      String.mk ("videos/".toList ++ ((c :: stem2) ++
        ("-output".toList ++ '.' :: e))) ∧
    specOutputPath (String.mk (dir ++ '/' :: ((c :: stem2) ++ '.' :: e))) =
      outputVideoPath (String.mk (dir ++ '/' :: ((c :: stem2) ++ '.' :: e))) ∧
    outputVideoPath ("live") =
      "videos/-outputl-outputi-outputv-outpute-output" ∧
    (∀ fs : List String, "videos" ∈ makedirsExistOk ("videos") fs) := by
  have hbase : afterLastSlash (dir ++ '/' :: ((c :: stem2) ++ '.' :: e)) =
      (c :: stem2) ++ '.' :: e :=
    afterLastSlash_last_component _ _ hslash
  have hext : fileExtension (dir ++ '/' :: ((c :: stem2) ++ '.' :: e)) =
      '.' :: e := by
    unfold fileExtension extOfBase
    rw [hbase]
    have htw : ((c :: stem2) ++ '.' :: e).takeWhile (fun x => x == '.') = [] := by
      simp [List.takeWhile_cons, hcdot]
    rw [htw]
    simpa using lastExt_final_ext e hedot (c :: stem2)
  have hrep : pyReplace ((c :: stem2) ++ '.' :: e) ('.' :: e)
      ("-output".toList ++ '.' :: e) =
      (c :: stem2) ++ ("-output".toList ++ '.' :: e) := by
    unfold pyReplace pyReplaceAux
    exact pyRepGo_tail_only '.' e _ (c :: stem2) hocc
  have hjoin : joinVideos ((c :: stem2) ++ ("-output".toList ++ '.' :: e)) =
      "videos/".toList ++ ((c :: stem2) ++ ("-output".toList ++ '.' :: e)) := by
    unfold joinVideos
    split
    · rename_i heq
      simp only [List.cons_append] at heq
      injection heq with h1 _
      exact absurd h1 hcslash
    · rfl
  have hmain : outputVideoPath
      (String.mk (dir ++ '/' :: ((c :: stem2) ++ '.' :: e))) =
      String.mk ("videos/".toList ++ ((c :: stem2) ++
        ("-output".toList ++ '.' :: e))) := by
    unfold outputVideoPath
    show String.mk (joinVideos (pyReplace
      (afterLastSlash (dir ++ '/' :: ((c :: stem2) ++ '.' :: e)))
      (fileExtension (dir ++ '/' :: ((c :: stem2) ++ '.' :: e)))
      ("-output".toList ++
        fileExtension (dir ++ '/' :: ((c :: stem2) ++ '.' :: e))))) = _
    rw [hbase, hext, hrep, hjoin]
  refine ⟨hmain, ?_, by decide, fun fs => ?_⟩
  case refine_2 =>
    unfold makedirsExistOk
    split
    · assumption
    · exact List.mem_cons_self _ _
  unfold specOutputPath
  show String.mk ("videos/".toList ++
      (afterLastSlash (dir ++ '/' :: ((c :: stem2) ++ '.' :: e))).take
        ((afterLastSlash (dir ++ '/' :: ((c :: stem2) ++ '.' :: e))).length -
          (fileExtension (dir ++ '/' :: ((c :: stem2) ++ '.' :: e))).length) ++
      "-output".toList ++
      fileExtension (dir ++ '/' :: ((c :: stem2) ++ '.' :: e))) = _
  rw [hbase, hext, hmain]
  have hlen : ((c :: stem2) ++ '.' :: e).length - ('.' :: e).length =
      (c :: stem2).length := by
    simp
    omega
  rw [hlen]
  have htake : ((c :: stem2) ++ '.' :: e).take (c :: stem2).length =
      c :: stem2 := List.take_left _ _
  rw [htake]
  simp

/-- Witness for C5 at the concrete input `uploads/sample.mp4`. -/
theorem c5_output_naming_witness :
    outputVideoPath (String.mk ("uploads".toList ++ '/' ::
        (('s' :: "ample".toList) ++ '.' :: "mp4".toList))) =
      String.mk ("videos/".toList ++ (('s' :: "ample".toList) ++
        ("-output".toList ++ '.' :: "mp4".toList))) ∧
    specOutputPath (String.mk ("uploads".toList ++ '/' ::
        (('s' :: "ample".toList) ++ '.' :: "mp4".toList))) =
      outputVideoPath (String.mk ("uploads".toList ++ '/' ::
        (('s' :: "ample".toList) ++ '.' :: "mp4".toList))) ∧
    outputVideoPath ("live") =
      "videos/-outputl-outputi-outputv-outpute-output" ∧
    (∀ fs : List String, "videos" ∈ makedirsExistOk ("videos") fs) :=
  c5_output_naming ("uploads".toList) ("ample".toList) ("mp4".toList) 's'
    (by decide) (by decide) (by decide) (by decide) (by decide)

/-- C5 counterexample: for an input whose stem itself contains the extension
substring (`clip.mp4.mp4`, stem `clip.mp4`, extension `.mp4`), the code's
replace-all produces `videos/clip-output.mp4-output.mp4`, not the spec's
`videos/clip.mp4-output.mp4`. -/
theorem c5_counterexample :
    outputVideoPath ("clip.mp4.mp4") ≠ specOutputPath ("clip.mp4.mp4") ∧
    outputVideoPath ("clip.mp4.mp4") = "videos/clip-output.mp4-output.mp4" ∧
    specOutputPath ("clip.mp4.mp4") = "videos/clip.mp4-output.mp4" := by
  decide
